import Mathlib

/-!
Shallow embedding of `scikits/image/io/_plugins/plugin.py`: the plugin
registry (descriptor scan, load, call dispatch, preference reordering,
availability query), together with theorems checking the specification's
claims against it.

Python dicts are modelled as insertion-ordered association lists with
string keys; the module-level mutable globals (`plugin_store`,
`plugin_provides`, `plugin_module_name`) become an explicit
`RegistryState` threaded through every operation; a `raise` becomes an
error value returned alongside the state mutated up to that point.
-/

namespace PluginRegistry

/-- Python dict modelled as an insertion-ordered association list with string keys. -/
abbrev Dict (α : Type) := List (String × α)

/-- Python `d[k]`: the value at the first binding of the key, if any. -/
def dictGet {α : Type} : Dict α → String → Option α
  | [], _ => none
  | (k, v) :: d, key => if k = key then some v else dictGet d key

/-- Python `k in d`: key membership. -/
def dictMem {α : Type} (d : Dict α) (key : String) : Bool :=
  (dictGet d key).isSome

/-- Python `d[k] = v`: replace the value at an existing key, else append a new binding. -/
def dictSet {α : Type} : Dict α → String → α → Dict α
  | [], key, v => [(key, v)]
  | (k, w) :: d, key, v => if k = key then (key, v) :: d else (k, w) :: dictSet d key v

/-- Python `d.keys()`. -/
def dictKeys {α : Type} (d : Dict α) : List String :=
  d.map (fun kv => kv.1)

/-- Residue of Python `d.pop(k, default)`: the dict without the binding for `k`. -/
def dictRemove {α : Type} : Dict α → String → Dict α
  | [], _ => []
  | (k, v) :: d, key => if k = key then d else (k, v) :: dictRemove d key

/-- The Python runtime values this module stores and compares: the singleton
`None`, strings, function objects (identified by a numeric id, since Python
compares plain functions by identity), lists of strings, and 2-tuples. -/
inductive PyVal : Type where
  | vnone : PyVal
  | vstr (s : String) : PyVal
  | vfunc (id : Nat) : PyVal
  | vstrList (xs : List String) : PyVal
  | vpair (a b : PyVal) : PyVal
deriving DecidableEq

/-- Python `==` on the values above: `None` equals itself, strings and lists
of strings compare by content, functions by identity, tuples componentwise;
values of different shapes compare unequal, as they do in Python for these
types. -/
def pyEq : PyVal → PyVal → Bool
  | .vnone, .vnone => true
  | .vstr a, .vstr b => a == b
  | .vfunc a, .vfunc b => a == b
  | .vstrList a, .vstrList b => a == b
  | .vpair a b, .vpair c d => pyEq a c && pyEq b d
  | _, _ => false

/-- Python `s.startswith(p)` by characters. -/
def startswith (s p : String) : Bool :=
  s.data.take p.data.length == p.data

/-- Python string slice `s[:-n]` (drop the last `n` characters). -/
def sliceDropLast (s : String) (n : Nat) : String :=
  String.mk (s.data.take (s.data.length - n))

/-- One entry of a capability's list: a `(plugin name, callable)` pair, the
callable being a function id. -/
abbrev Entry := String × Nat

/-- The registry's module-level mutable state: `plugin_store`,
`plugin_provides` and `plugin_module_name`. -/
structure RegistryState where
  plugin_store : Dict (List Entry)
  plugin_provides : Dict (List String)
  plugin_module_name : Dict String
deriving DecidableEq

/-- Literal initial value of `plugin_store`: the four recognized capability
kinds, each with an empty list. -/
def initial_plugin_store : Dict (List Entry) :=
  [("imread", []), ("imsave", []), ("imshow", []), ("_app_show", [])]

/-- Registry state at module initialization, before `_scan_plugins` runs. -/
def initState : RegistryState :=
  { plugin_store := initial_plugin_store, plugin_provides := [], plugin_module_name := [] }

/-- One parsed descriptor file as `_scan_plugins` sees it: the file's base
name (`os.path.basename(f)`), the first section name (`cp.sections()[0]`),
and the comma-split, stripped `provides` list. -/
structure IniFile where
  basename : String
  sectionName : String
  provides : List String
deriving DecidableEq

/-- Body of the `for f in ini` loop of `_scan_plugins`: filter the declared
capabilities against the `plugin_store` keys, record the valid ones under the
section name, and record the module identifier `os.path.basename(f)[:-4]`. -/
def scanOne (s : RegistryState) (f : IniFile) : RegistryState :=
  let valid_provides := f.provides.filter (fun p => dictMem s.plugin_store p)
  { s with
    plugin_provides := dictSet s.plugin_provides f.sectionName valid_provides,
    plugin_module_name := dictSet s.plugin_module_name f.sectionName (sliceDropLast f.basename 4) }

/-- The whole `_scan_plugins` run over the discovered descriptor files. -/
def scanPlugins (files : List IniFile) : RegistryState :=
  files.foldl scanOne initState

/-- Distinct failure events of the registry, one constructor per `raise`
site (named after the specification's error taxonomy), plus `keyError` for
Python's implicit `KeyError`/`ImportError` on a missing dict key or module,
and `fromCallable` for an exception the dispatched callable itself raises. -/
inductive Err : Type where
  | unknownPlugin : Err
  | importError : Err
  | keyError : Err
  | invalidCapability : Err
  | noPluginRegistered : Err
  | pluginNotFound : Err
  | unsupportedCapability : Err
  | pluginNotLoaded : Err
  | unknownFunction : Err
  | fromCallable (n : Nat) : Err
deriving DecidableEq

/-- The membership test `func in store` from `load`: `store` holds
`(plugin, func)` 2-tuples, so Python compares the bare function against each
tuple. -/
def funcInStore (fid : Nat) (store : List Entry) : Bool :=
  store.any (fun e => pyEq (PyVal.vfunc fid) (PyVal.vpair (PyVal.vstr e.1) (PyVal.vfunc e.2)))

/-- The membership test `kind in plugin_provides[name]` from `use` after
`kind = [kind]`: Python compares the one-element list against each declared
capability string. -/
def kindListInProvides (k : String) (provs : List String) : Bool :=
  provs.any (fun p => pyEq (PyVal.vstrList [k]) (PyVal.vstr p))

/-- Module name `load` imports: `modname = plugin + "_plugin"`. -/
def loadModname (plugin : String) : String :=
  plugin ++ "_plugin"

/-- A loaded Python module, as the registry sees it: its top-level callables
by attribute name (`hasattr`/`getattr`). -/
abbrev PyModule := Dict Nat

/-- The importable modules: module name to module. -/
abbrev ModuleEnv := Dict PyModule

/-- Update `plugin_store[k]` in the registry state. -/
def setStore (s : RegistryState) (k : String) (l : List Entry) : RegistryState :=
  { s with plugin_store := dictSet s.plugin_store k l }

/-- The `for p in provides` loop of `load`: skip capabilities the module does
not expose (warning only); otherwise `store.insert(0, (plugin, func))` unless
the membership test `func in store` succeeds. -/
def loadLoop (m : PyModule) (plugin : String) : List String → RegistryState → RegistryState × Option Err
  | [], s => (s, none)
  | p :: ps, s =>
    match dictGet m p with
    | none => loadLoop m plugin ps s
    | some func =>
      match dictGet s.plugin_store p with
      | none => (s, some Err.keyError)
      | some store =>
        loadLoop m plugin ps
          (if funcInStore func store then s else setStore s p ((plugin, func) :: store))

/-- The `load(plugin)` operation: reject unscanned names, import
`plugin + "_plugin"`, then register the advertised capabilities. -/
def load (env : ModuleEnv) (s : RegistryState) (plugin : String) : RegistryState × Option Err :=
  if ¬ dictMem s.plugin_module_name plugin then (s, some Err.unknownPlugin)
  else
    match dictGet env (loadModname plugin) with
    | none => (s, some Err.importError)
    | some plugin_module =>
      match dictGet s.plugin_provides plugin with
      | none => (s, some Err.keyError)
      | some provides => loadLoop plugin_module plugin provides s

/-- Whether a plugin occurs in some entry of some capability list: the
`active_plugins` set built by `available`. -/
def storeAny (d : Dict (List Entry)) (q : Entry → Bool) : Bool :=
  d.any (fun kv => kv.2.any q)

/-- The `available(loaded)` query: every scanned plugin (or, when `loaded`,
every scanned plugin occurring in some capability list) mapped to its declared
capabilities whose names do not start with an underscore. -/
def available (loaded : Bool) (s : RegistryState) : Dict (List String) :=
  s.plugin_provides.filterMap (fun kv =>
    if !loaded || storeAny s.plugin_store (fun e => e.1 == kv.1)
    then some (kv.1, kv.2.filter (fun f => !(startswith f "_")))
    else none)

/-- The reordering `use` applies to one capability list: the entries naming
the plugin first, then the others, both sublists in their original order. -/
def stablePartition (name : String) (funcs : List Entry) : List Entry :=
  funcs.filter (fun e => e.1 == name) ++ funcs.filter (fun e => !(e.1 == name))

/-- The `for k in kind` loop of `use`: reject unknown capability names,
otherwise replace `plugin_store[k]` by its stable partition. -/
def useLoop (name : String) : List String → RegistryState → RegistryState × Option Err
  | [], s => (s, none)
  | k :: ks, s =>
    match dictGet s.plugin_store k with
    | none => (s, some Err.unknownFunction)
    | some funcs => useLoop name ks (setStore s k (stablePartition name funcs))

/-- The `use(name, kind)` operation. With `kind` given, the source first runs
`kind = [kind]` and then tests `kind in plugin_provides[name]` — the
one-element list against a list of strings — before the loaded check; with
`kind` omitted it targets every key of `plugin_store`. -/
def use (s : RegistryState) (name : String) (kind : Option String) : RegistryState × Option Err :=
  match kind with
  | none =>
    if ¬ dictMem (available true s) name then (s, some Err.pluginNotLoaded)
    else useLoop name (dictKeys s.plugin_store) s
  | some k =>
    match dictGet s.plugin_provides name with
    | none => (s, some Err.keyError)
    | some provs =>
      if ¬ kindListInProvides k provs then (s, some Err.unsupportedCapability)
      else if ¬ dictMem (available true s) name then (s, some Err.pluginNotLoaded)
      else useLoop name [k] s

/-- Outcome of invoking a registered callable: a returned value, or an
exception of the callable's own (an opaque id). -/
inductive Outcome : Type where
  | ret (v : PyVal) : Outcome
  | exc (n : Nat) : Outcome
deriving DecidableEq

/-- Semantics of the registered callables: a callable id applied to the
positional and keyword arguments yields an outcome. -/
abbrev FuncSem := Nat → List PyVal → Dict PyVal → Outcome

/-- Result of `call`: a returned value or one of the errors. -/
inductive CallResult : Type where
  | ok (v : PyVal) : CallResult
  | error (e : Err) : CallResult
deriving DecidableEq

/-- Return from `call`: the callable's outcome handed back verbatim, its own
exceptions propagating uncaught. -/
def liftResult (s : RegistryState) : Outcome → RegistryState × CallResult
  | .ret v => (s, CallResult.ok v)
  | .exc n => (s, CallResult.error (Err.fromCallable n))

/-- The `call(kind, *args, plugin=None, **kwargs)` operation: unknown kind,
empty list, then either the first entry or the first entry matching the
`plugin` keyword argument (which is popped before forwarding `kwargs`). -/
def call (fsem : FuncSem) (s : RegistryState) (kind : String) (args : List PyVal)
    (kwargs : Dict PyVal) : RegistryState × CallResult :=
  match dictGet s.plugin_store kind with
  | none => (s, CallResult.error Err.invalidCapability)
  | some plugin_funcs =>
    match plugin_funcs with
    | [] => (s, CallResult.error Err.noPluginRegistered)
    | (p0, f0) :: rest =>
      let pluginArg := (dictGet kwargs "plugin").getD PyVal.vnone
      let kwargs' := dictRemove kwargs "plugin"
      if pyEq pluginArg PyVal.vnone then liftResult s (fsem f0 args kwargs')
      else
        match ((p0, f0) :: rest).filter (fun e => pyEq (PyVal.vstr e.1) pluginArg) with
        | [] => (s, CallResult.error Err.pluginNotFound)
        | (_, f) :: _ => liftResult s (fsem f args kwargs')

/-- One public registry operation, for reasoning about operation sequences. -/
inductive Op : Type where
  | opLoad (plugin : String) : Op
  | opUse (name : String) (kind : Option String) : Op
  | opCall (kind : String) (args : List PyVal) (kwargs : Dict PyVal) : Op

/-- State after one operation (the result value, if any, is discarded). -/
def step (env : ModuleEnv) (fsem : FuncSem) (s : RegistryState) : Op → RegistryState
  | .opLoad p => (load env s p).1
  | .opUse n k => (use s n k).1
  | .opCall k a kw => (call fsem s k a kw).1

/-- State after a sequence of operations. -/
def run (env : ModuleEnv) (fsem : FuncSem) (s : RegistryState) (ops : List Op) : RegistryState :=
  ops.foldl (step env fsem) s

/-- Demonstration descriptor: plugin `A` declaring `imread` and `imsave`,
in a conventionally named file. -/
def iniA : IniFile :=
  { basename := "A_plugin.ini", sectionName := "A", provides := ["imread", "imsave"] }

/-- Demonstration module environment exposing `A_plugin` with both callables. -/
def envA : ModuleEnv := [("A_plugin", [("imread", 1), ("imsave", 2)])]

/-- State after scanning the demonstration descriptor. -/
def sScanned : RegistryState := scanPlugins [iniA]

/-- State after additionally running `load("A")` once. -/
def sLoaded : RegistryState := (load envA sScanned "A").1

/-- State after running `load("A")` a second time. -/
def sTwice : RegistryState := (load envA sLoaded "A").1

/-- Demonstration callable semantics: return a value recording which callable
ran. -/
def fsemDemo : FuncSem := fun f _ _ => Outcome.ret (PyVal.vfunc f)

/-- Demonstration descriptor whose file base name does not follow the
`section + "_plugin"` naming convention. -/
def iniOdd : IniFile := { basename := "foo.ini", sectionName := "bar", provides := ["imread"] }

/-- State after scanning the unconventionally named descriptor. -/
def sOdd : RegistryState := scanPlugins [iniOdd]

/-- Module environment offering exactly the module the scanner recorded for
the unconventional descriptor. -/
def envOdd : ModuleEnv := [("foo", [("imread", 5)])]

/-- A descriptor following the naming convention: file base name equal to the
section name followed by the fixed suffix. -/
def iniConventional (n : String) (provides : List String) : IniFile :=
  { basename := n ++ "_plugin.ini", sectionName := n, provides := provides }

/-- A plugin occurring in some capability list has a `plugin_provides` entry
(true of every state `load` can produce, since `load` requires the scan to
have recorded the plugin). -/
def storeSubsetProvides (s : RegistryState) : Prop :=
  ∀ kv ∈ s.plugin_store, ∀ e ∈ kv.2, dictMem s.plugin_provides e.1 = true

instance (s : RegistryState) : Decidable (storeSubsetProvides s) := by
  unfold storeSubsetProvides
  infer_instance


/-! Association-list (Python dict) lemmas. -/

theorem dictGet_set_self {α : Type} (d : Dict α) (k : String) (v : α) :
    dictGet (dictSet d k v) k = some v := by
  induction d with
  | nil => simp [dictSet, dictGet]
  | cons kv d ih =>
    obtain ⟨k', w⟩ := kv
    by_cases h : k' = k
    · subst h; simp [dictSet, dictGet]
    · simp [dictSet, dictGet, h, ih]

theorem dictGet_set_ne {α : Type} (d : Dict α) (k : String) (v : α) (key : String)
    (hne : k ≠ key) : dictGet (dictSet d k v) key = dictGet d key := by
  induction d with
  | nil => simp [dictSet, dictGet, hne]
  | cons kv d ih =>
    obtain ⟨k', w⟩ := kv
    by_cases h : k' = k
    · subst h; simp [dictSet, dictGet, hne]
    · simp [dictSet, dictGet, h, ih]

theorem dictMem_iff_mem_keys {α : Type} (d : Dict α) (k : String) :
    dictMem d k = true ↔ k ∈ dictKeys d := by
  induction d with
  | nil => simp [dictMem, dictGet, dictKeys]
  | cons kv d ih =>
    obtain ⟨k', w⟩ := kv
    by_cases h : k' = k
    · subst h; simp [dictMem, dictGet, dictKeys]
    · simp [dictMem, dictGet, dictKeys, h, Ne.symm h] at ih ⊢
      exact ih

theorem mem_keys_of_get {α : Type} (d : Dict α) (k : String) (v : α)
    (h : dictGet d k = some v) : k ∈ dictKeys d := by
  rw [← dictMem_iff_mem_keys]
  simp [dictMem, h]

theorem dictKeys_set_of_mem {α : Type} (d : Dict α) (k : String) (v : α)
    (h : dictMem d k = true) : dictKeys (dictSet d k v) = dictKeys d := by
  induction d with
  | nil => simp [dictMem, dictGet] at h
  | cons kv d ih =>
    obtain ⟨k', w⟩ := kv
    by_cases hk : k' = k
    · subst hk; simp [dictSet, dictKeys]
    · simp [dictMem, dictGet, hk] at h
      simp [dictSet, dictKeys, hk] at ih ⊢
      exact ih h

theorem dictSet_get_self {α : Type} (d : Dict α) (k : String) (v : α)
    (h : dictGet d k = some v) : dictSet d k v = d := by
  induction d with
  | nil => simp [dictGet] at h
  | cons kv d ih =>
    obtain ⟨k', w⟩ := kv
    by_cases hk : k' = k
    · subst hk
      simp [dictGet] at h
      simp [dictSet, h]
    · simp [dictGet, hk] at h
      simp [dictSet, hk, ih h]

theorem dictRemove_of_get_none {α : Type} (d : Dict α) (k : String)
    (h : dictGet d k = none) : dictRemove d k = d := by
  induction d with
  | nil => rfl
  | cons kv d ih =>
    obtain ⟨k', w⟩ := kv
    by_cases hk : k' = k
    · subst hk; simp [dictGet] at h
    · simp [dictGet, hk] at h
      simp [dictRemove, hk, ih h]

theorem dictGet_filterMapIf {α β : Type} (keep : String → Bool) (g : α → β) :
    ∀ (d : Dict α) (key : String),
    dictGet (d.filterMap (fun kv => if keep kv.1 then some (kv.1, g kv.2) else none)) key
      = if keep key then (dictGet d key).map g else none := by
  intro d
  induction d with
  | nil => intro key; cases h : keep key <;> simp [dictGet, h]
  | cons kv d ih =>
    intro key
    obtain ⟨k, v⟩ := kv
    by_cases hk : k = key
    · subst hk
      cases h : keep k <;> simp [List.filterMap_cons, h, dictGet, ih]
    · cases h : keep k <;> simp [List.filterMap_cons, h, dictGet, hk, ih]

theorem dictKeys_filterMapSome {α β : Type} (g : α → β) :
    ∀ (d : Dict α), dictKeys (d.filterMap (fun kv => some (kv.1, g kv.2))) = dictKeys d := by
  intro d
  induction d with
  | nil => rfl
  | cons kv d ih => simp [List.filterMap_cons, dictKeys] at ih ⊢; exact ih

/-! Lemmas about the stable partition `use` applies and about `storeAny`. -/

theorem perm_any_eq {α : Type} {l₁ l₂ : List α} (h : l₁.Perm l₂) (q : α → Bool) :
    l₁.any q = l₂.any q := by
  cases hb : l₂.any q
  · rw [List.any_eq_false] at hb ⊢
    intro x hx
    exact hb x (h.mem_iff.mp hx)
  · rw [List.any_eq_true] at hb ⊢
    obtain ⟨x, hx, hq⟩ := hb
    exact ⟨x, h.mem_iff.mpr hx, hq⟩

theorem stablePartition_perm (name : String) (l : List Entry) :
    (stablePartition name l).Perm l := by
  unfold stablePartition
  exact List.filter_append_perm (fun e : Entry => e.1 == name) l

theorem stablePartition_any (name : String) (l : List Entry) (q : Entry → Bool) :
    (stablePartition name l).any q = l.any q :=
  perm_any_eq (stablePartition_perm name l) q

theorem stablePartition_idem (name : String) (l : List Entry) :
    stablePartition name (stablePartition name l) = stablePartition name l := by
  unfold stablePartition
  simp [List.filter_append, List.filter_filter]

theorem setStore_provides (s : RegistryState) (k : String) (l : List Entry) :
    (setStore s k l).plugin_provides = s.plugin_provides := rfl

theorem setStore_self (t : RegistryState) (k : String) (v : List Entry)
    (h : dictGet t.plugin_store k = some v) : setStore t k v = t := by
  cases t with
  | mk st pr mn =>
    simp only [setStore]
    rw [dictSet_get_self _ _ _ h]

theorem setStore_store (s : RegistryState) (k : String) (l : List Entry) :
    (setStore s k l).plugin_store = dictSet s.plugin_store k l := rfl

theorem storeAny_cons (kv : String × List Entry) (d : Dict (List Entry)) (q : Entry → Bool) :
    storeAny (kv :: d) q = (kv.2.any q || storeAny d q) := by
  simp [storeAny]

theorem storeAny_set_of_any_eq (d : Dict (List Entry)) (k : String) (l v : List Entry)
    (hget : dictGet d k = some l) (q : Entry → Bool) (hq : v.any q = l.any q) :
    storeAny (dictSet d k v) q = storeAny d q := by
  induction d with
  | nil => simp [dictGet] at hget
  | cons kv d ih =>
    obtain ⟨k', w⟩ := kv
    by_cases h : k' = k
    · subst h
      simp [dictGet] at hget
      subst hget
      simp [dictSet, storeAny_cons, hq]
    · simp [dictGet, h] at hget
      simp [dictSet, h, storeAny_cons, ih hget]

/-! Lemmas about `available`. -/

theorem dictGet_available (loaded : Bool) (s : RegistryState) (key : String) :
    dictGet (available loaded s) key =
      if !loaded || storeAny s.plugin_store (fun e => e.1 == key)
      then (dictGet s.plugin_provides key).map
        (fun provs => provs.filter (fun f => !(startswith f "_")))
      else none := by
  unfold available
  exact dictGet_filterMapIf
    (fun key => !loaded || storeAny s.plugin_store (fun e => e.1 == key))
    (fun provs => provs.filter (fun f => !(startswith f "_")))
    s.plugin_provides key

theorem dictKeys_available_false (s : RegistryState) :
    dictKeys (available false s) = dictKeys s.plugin_provides := by
  unfold available
  simp only [Bool.not_false, Bool.true_or, if_true]
  exact dictKeys_filterMapSome _ s.plugin_provides

theorem available_congr (b : Bool) (s' s : RegistryState)
    (hp : s'.plugin_provides = s.plugin_provides)
    (hq : ∀ q : Entry → Bool, storeAny s'.plugin_store q = storeAny s.plugin_store q) :
    available b s' = available b s := by
  unfold available
  rw [hp]
  apply List.filterMap_congr
  intro kv _
  rw [hq]

/-! Lemmas about the reordering loop of `use`. -/

theorem useLoop_provides (name : String) :
    ∀ (ks : List String) (s : RegistryState),
    ((useLoop name ks s).1).plugin_provides = s.plugin_provides := by
  intro ks
  induction ks with
  | nil => intro s; rfl
  | cons k ks ih =>
    intro s
    cases hget : dictGet s.plugin_store k with
    | none => simp [useLoop, hget]
    | some funcs => simp [useLoop, hget, ih, setStore_provides]

theorem useLoop_storeAny (name : String) :
    ∀ (ks : List String) (s : RegistryState) (q : Entry → Bool),
    storeAny ((useLoop name ks s).1).plugin_store q = storeAny s.plugin_store q := by
  intro ks
  induction ks with
  | nil => intro s q; rfl
  | cons k ks ih =>
    intro s q
    cases hget : dictGet s.plugin_store k with
    | none => simp [useLoop, hget]
    | some funcs =>
      simp only [useLoop, hget]
      rw [ih]
      exact storeAny_set_of_any_eq s.plugin_store k funcs _ hget q
        (stablePartition_any name funcs q)

theorem useLoop_keys (name : String) :
    ∀ (ks : List String) (s : RegistryState),
    dictKeys ((useLoop name ks s).1).plugin_store = dictKeys s.plugin_store := by
  intro ks
  induction ks with
  | nil => intro s; rfl
  | cons k ks ih =>
    intro s
    cases hget : dictGet s.plugin_store k with
    | none => simp [useLoop, hget]
    | some funcs =>
      simp only [useLoop, hget]
      rw [ih, setStore_store, dictKeys_set_of_mem]
      simp [dictMem, hget]

theorem useLoop_get (name : String) :
    ∀ (ks : List String) (s : RegistryState),
    ks.Nodup → (∀ k ∈ ks, dictMem s.plugin_store k = true) →
    (useLoop name ks s).2 = none ∧
    (∀ k, k ∈ ks →
      dictGet ((useLoop name ks s).1).plugin_store k
        = (dictGet s.plugin_store k).map (stablePartition name)) ∧
    (∀ k, k ∉ ks →
      dictGet ((useLoop name ks s).1).plugin_store k = dictGet s.plugin_store k) := by
  intro ks
  induction ks with
  | nil =>
    intro s _ _
    exact ⟨rfl, fun k hk => absurd hk (List.not_mem_nil k), fun k _ => rfl⟩
  | cons k ks ih =>
    intro s hnd hmem
    rw [List.nodup_cons] at hnd
    obtain ⟨hknotin, hnd'⟩ := hnd
    have hk0 : dictMem s.plugin_store k = true := hmem k (List.mem_cons_self k ks)
    rw [dictMem] at hk0
    obtain ⟨funcs, hget⟩ := Option.isSome_iff_exists.mp hk0
    have hstep : useLoop name (k :: ks) s
        = useLoop name ks (setStore s k (stablePartition name funcs)) := by
      simp [useLoop, hget]
    have hmem' : ∀ k' ∈ ks, dictMem (setStore s k (stablePartition name funcs)).plugin_store k' = true := by
      intro k' hk'
      have hne : k ≠ k' := fun h => hknotin (h ▸ hk')
      rw [setStore_store, dictMem, dictGet_set_ne _ _ _ _ hne]
      exact hmem k' (List.mem_cons_of_mem k hk')
    obtain ⟨ih1, ih2, ih3⟩ := ih (setStore s k (stablePartition name funcs)) hnd' hmem'
    refine ⟨by rw [hstep]; exact ih1, ?_, ?_⟩
    · intro k₀ hk₀
      rw [hstep]
      rcases List.mem_cons.mp hk₀ with h | h
      · subst h
        rw [ih3 k₀ hknotin, setStore_store, dictGet_set_self, hget]
        rfl
      · have hne : k ≠ k₀ := fun hh => hknotin (hh ▸ h)
        rw [ih2 k₀ h, setStore_store, dictGet_set_ne _ _ _ _ hne]
    · intro k₀ hk₀
      rw [hstep]
      have hne : k ≠ k₀ := fun hh => hk₀ (hh ▸ List.mem_cons_self k ks)
      have hnotin : k₀ ∉ ks := fun hh => hk₀ (List.mem_cons_of_mem k hh)
      rw [ih3 k₀ hnotin, setStore_store, dictGet_set_ne _ _ _ _ hne]

theorem useLoop_idem (name : String) :
    ∀ (ks : List String) (s : RegistryState),
    ks.Nodup → (∀ k ∈ ks, dictMem s.plugin_store k = true) →
    useLoop name ks (useLoop name ks s).1 = ((useLoop name ks s).1, none) := by
  intro ks
  induction ks with
  | nil => intro s _ _; rfl
  | cons k ks ih =>
    intro s hnd hmem
    rw [List.nodup_cons] at hnd
    obtain ⟨hknotin, hnd'⟩ := hnd
    have hk0 : dictMem s.plugin_store k = true := hmem k (List.mem_cons_self k ks)
    rw [dictMem] at hk0
    obtain ⟨funcs, hget⟩ := Option.isSome_iff_exists.mp hk0
    have hstep : useLoop name (k :: ks) s
        = useLoop name ks (setStore s k (stablePartition name funcs)) := by
      simp [useLoop, hget]
    have hmem' : ∀ k' ∈ ks, dictMem (setStore s k (stablePartition name funcs)).plugin_store k' = true := by
      intro k' hk'
      have hne : k ≠ k' := fun h => hknotin (h ▸ hk')
      rw [setStore_store, dictMem, dictGet_set_ne _ _ _ _ hne]
      exact hmem k' (List.mem_cons_of_mem k hk')
    obtain ⟨_, _, ihu3⟩ :=
      useLoop_get name ks (setStore s k (stablePartition name funcs)) hnd' hmem'
    have hsf : dictGet ((useLoop name ks (setStore s k (stablePartition name funcs))).1).plugin_store k
        = some (stablePartition name funcs) := by
      rw [ihu3 k hknotin, setStore_store, dictGet_set_self]
    rw [hstep]
    have hloop2 : useLoop name (k :: ks)
        ((useLoop name ks (setStore s k (stablePartition name funcs))).1)
        = useLoop name ks ((useLoop name ks (setStore s k (stablePartition name funcs))).1) := by
      simp only [useLoop, hsf]
      rw [stablePartition_idem]
      rw [setStore_self _ _ _ hsf]
    rw [hloop2]
    exact ih (setStore s k (stablePartition name funcs)) hnd' hmem'

/-! Frame and key-set lemmas for `load`, `call`, and operation sequences. -/

theorem liftResult_fst (s : RegistryState) (o : Outcome) : (liftResult s o).1 = s := by
  cases o <;> rfl

theorem call_fst (fsem : FuncSem) (s : RegistryState) (kind : String) (args : List PyVal)
    (kwargs : Dict PyVal) : (call fsem s kind args kwargs).1 = s := by
  unfold call
  cases dictGet s.plugin_store kind with
  | none => rfl
  | some pf =>
    cases pf with
    | nil => rfl
    | cons e rest =>
      obtain ⟨p0, f0⟩ := e
      dsimp only
      split
      · exact liftResult_fst _ _
      · split
        · rfl
        · exact liftResult_fst _ _

theorem loadLoop_keys (m : PyModule) (plugin : String) :
    ∀ (ps : List String) (s : RegistryState),
    dictKeys ((loadLoop m plugin ps s).1).plugin_store = dictKeys s.plugin_store := by
  intro ps
  induction ps with
  | nil => intro s; rfl
  | cons p ps ih =>
    intro s
    cases hf : dictGet m p with
    | none => simp [loadLoop, hf, ih]
    | some func =>
      cases hget : dictGet s.plugin_store p with
      | none => simp [loadLoop, hf, hget]
      | some store =>
        simp only [loadLoop, hf, hget]
        rw [ih]
        by_cases hmem : funcInStore func store
        · simp [hmem]
        · simp only [hmem, if_false, Bool.false_eq_true]
          rw [setStore_store, dictKeys_set_of_mem]
          simp [dictMem, hget]

theorem load_keys (env : ModuleEnv) (s : RegistryState) (plugin : String) :
    dictKeys ((load env s plugin).1).plugin_store = dictKeys s.plugin_store := by
  unfold load
  split
  · rfl
  · cases dictGet env (loadModname plugin) with
    | none => rfl
    | some m =>
      cases dictGet s.plugin_provides plugin with
      | none => rfl
      | some provides => exact loadLoop_keys m plugin provides s

theorem use_keys (s : RegistryState) (name : String) (kind : Option String) :
    dictKeys ((use s name kind).1).plugin_store = dictKeys s.plugin_store := by
  cases kind with
  | none =>
    simp only [use]
    split
    · rfl
    · exact useLoop_keys name _ s
  | some k =>
    simp only [use]
    split
    · rfl
    · split
      · rfl
      · split
        · rfl
        · exact useLoop_keys name [k] s

theorem step_keys (env : ModuleEnv) (fsem : FuncSem) (s : RegistryState) (op : Op) :
    dictKeys (step env fsem s op).plugin_store = dictKeys s.plugin_store := by
  cases op with
  | opLoad p => exact load_keys env s p
  | opUse n k => exact use_keys s n k
  | opCall k a kw => rw [step, call_fst]

theorem run_keys (env : ModuleEnv) (fsem : FuncSem) :
    ∀ (ops : List Op) (s : RegistryState),
    dictKeys (run env fsem s ops).plugin_store = dictKeys s.plugin_store := by
  intro ops
  induction ops with
  | nil => intro s; rfl
  | cons op ops ih =>
    intro s
    show dictKeys (run env fsem (step env fsem s op) ops).plugin_store = _
    rw [ih, step_keys]

theorem scan_foldl_store (files : List IniFile) :
    ∀ (s : RegistryState), (files.foldl scanOne s).plugin_store = s.plugin_store := by
  induction files with
  | nil => intro s; rfl
  | cons f files ih => intro s; rw [List.foldl_cons, ih]; rfl

theorem sliceDropLast_append_ini (x : String) : sliceDropLast (x ++ ".ini") 4 = x := by
  unfold sliceDropLast
  rw [String.data_append]
  have h4 : (".ini" : String).data.length = 4 := rfl
  rw [List.length_append, h4, Nat.add_sub_cancel, List.take_left]

theorem sliceDropLast_plugin_ini (n : String) :
    sliceDropLast (n ++ "_plugin.ini") 4 = n ++ "_plugin" := by
  have h : n ++ "_plugin.ini" = (n ++ "_plugin") ++ ".ini" := by
    rw [String.append_assoc]
    rfl
  rw [h]
  exact sliceDropLast_append_ini (n ++ "_plugin")

/-! Theorems checking the specification's claims. -/

/-- C1: the claim says a second `load` of the same plugin creates no duplicate
entry, but the source's guard `if not func in store` compares the bare
function against the `(plugin, func)` tuples of the list, which is always
false in Python, so the pair is inserted again: after loading `A` twice the
`imread` list holds the pair `("A", 1)` twice. -/
theorem load_twice_duplicates_entry :
    dictGet sTwice.plugin_store "imread" = some [("A", 1), ("A", 1)] ∧
    (dictGet sTwice.plugin_store "imread").map (fun l => l.count (("A", 1) : Entry)) = some 2 := by
  decide

/-- C2: the claim says `use(name, kind)` succeeds when the loaded plugin
`name` declared `kind`, but the source wraps `kind` into a one-element list
and then tests that list for membership in the list of declared capability
strings, which is always false in Python, so the call raises
`UnsupportedCapabilityError` even though `A` is loaded and declares
`imsave`. -/
theorem use_with_kind_always_raises :
    dictGet sLoaded.plugin_provides "A" = some ["imread", "imsave"] ∧
    dictMem (available true sLoaded) "A" = true ∧
    use sLoaded "A" (some "imsave") = (sLoaded, some Err.unsupportedCapability) := by
  decide

/-- C3 (counterexample): a scanned descriptor whose file base name `foo` is
not its section name `bar` plus `"_plugin"` makes the two module-identifier
conventions disagree: the scanner records `foo`, while `load` imports
`bar_plugin` — and indeed `load` fails to import even when a module named
`foo` exists. -/
theorem scan_loader_module_name_mismatch :
    dictGet sOdd.plugin_module_name "bar" = some "foo" ∧
    loadModname "bar" ≠ "foo" ∧
    (load envOdd sOdd "bar").2 = some Err.importError := by
  decide

/-- C3 (amended): `load` imports the module named `plugin + "_plugin"`, and
this agrees with the identifier the scanner records (descriptor file base
name with its `.ini` extension stripped) exactly for descriptors following
the naming convention, i.e. whose file base name is the section name followed
by `"_plugin.ini"`. -/
theorem scan_records_loader_module_for_conventional_descriptors
    (s : RegistryState) (n : String) (provides : List String) :
    dictGet ((scanOne s (iniConventional n provides)).plugin_module_name) n
      = some (loadModname n) := by
  show dictGet (dictSet s.plugin_module_name n (sliceDropLast (n ++ "_plugin.ini") 4)) n = _
  rw [dictGet_set_self, sliceDropLast_plugin_ini]
  rfl

/-- C8: after the initial scan and any sequence of `load`, `use` and `call`
operations, the key set of the Capability Store is exactly the four
recognized capability kinds. -/
theorem capability_store_keys_invariant (env : ModuleEnv) (fsem : FuncSem)
    (files : List IniFile) (ops : List Op) :
    dictKeys (run env fsem (scanPlugins files) ops).plugin_store
      = ["imread", "imsave", "imshow", "_app_show"] := by
  rw [run_keys]
  show dictKeys (files.foldl scanOne initState).plugin_store = _
  rw [scan_foldl_store]
  rfl

/-- C9: `call` never mutates registry state — whatever it returns or raises,
the capability lists and both descriptor mappings are unchanged. -/
theorem call_never_mutates (fsem : FuncSem) (s : RegistryState) (kind : String)
    (args : List PyVal) (kwargs : Dict PyVal) :
    (call fsem s kind args kwargs).1 = s ∧
    ((call fsem s kind args kwargs).1).plugin_store = s.plugin_store ∧
    ((call fsem s kind args kwargs).1).plugin_provides = s.plugin_provides ∧
    ((call fsem s kind args kwargs).1).plugin_module_name = s.plugin_module_name := by
  have h := call_fst fsem s kind args kwargs
  exact ⟨h, by rw [h], by rw [h], by rw [h]⟩

/-- C10: in `call`, the empty-list check precedes the explicit-plugin lookup:
for a recognized kind with an empty registry list, `call` with any explicit
plugin name raises `NoPluginRegisteredError`, never
`PluginNotFoundForCapabilityError`. -/
theorem call_empty_registry_precedence (fsem : FuncSem) (s : RegistryState) (kind : String)
    (args : List PyVal) (kwargs : Dict PyVal) (p : String)
    (hempty : dictGet s.plugin_store kind = some [])
    (_hp : dictGet kwargs "plugin" = some (PyVal.vstr p)) :
    (call fsem s kind args kwargs).2 = CallResult.error Err.noPluginRegistered ∧
    (call fsem s kind args kwargs).2 ≠ CallResult.error Err.pluginNotFound := by
  unfold call
  rw [hempty]
  exact ⟨rfl, by simp⟩

/-- C10 witness: with nothing loaded, dispatching `imread` with an explicit
plugin raises `NoPluginRegisteredError`. -/
theorem call_empty_registry_precedence_witness :
    (call fsemDemo sScanned "imread" [] [("plugin", PyVal.vstr "Z")]).2
        = CallResult.error Err.noPluginRegistered ∧
    (call fsemDemo sScanned "imread" [] [("plugin", PyVal.vstr "Z")]).2
        ≠ CallResult.error Err.pluginNotFound :=
  call_empty_registry_precedence fsemDemo sScanned "imread" [] [("plugin", PyVal.vstr "Z")] "Z"
    (by decide) (by decide)

/-- The second component of `liftResult` is never one of the registry's own
errors. -/
theorem liftResult_snd_ne (s : RegistryState) (o : Outcome) (e : Err)
    (he : ∀ n, e ≠ Err.fromCallable n) :
    (liftResult s o).2 ≠ CallResult.error e := by
  cases o with
  | ret v => simp [liftResult]
  | exc n =>
    simp only [liftResult, ne_eq, CallResult.error.injEq]
    exact fun h => he n h.symm

/-- C4: for a recognized kind with a non-empty list and no `plugin` keyword,
`call` invokes the first entry's callable on exactly the given positional and
keyword arguments, returns its result verbatim, and propagates its
exceptions. -/
theorem call_dispatches_first_entry (fsem : FuncSem) (s : RegistryState) (kind : String)
    (p0 : String) (f0 : Nat) (rest : List Entry) (args : List PyVal) (kwargs : Dict PyVal)
    (hget : dictGet s.plugin_store kind = some ((p0, f0) :: rest))
    (hnoplugin : dictGet kwargs "plugin" = none) :
    call fsem s kind args kwargs = liftResult s (fsem f0 args kwargs) ∧
    (∀ v, fsem f0 args kwargs = Outcome.ret v →
      (call fsem s kind args kwargs).2 = CallResult.ok v) ∧
    (∀ n, fsem f0 args kwargs = Outcome.exc n →
      (call fsem s kind args kwargs).2 = CallResult.error (Err.fromCallable n)) := by
  have hmain : call fsem s kind args kwargs = liftResult s (fsem f0 args kwargs) := by
    unfold call
    rw [hget]
    simp only [hnoplugin, Option.getD_none, dictRemove_of_get_none kwargs "plugin" hnoplugin]
    simp [pyEq]
  refine ⟨hmain, ?_, ?_⟩
  · intro v hv
    rw [hmain, hv]
    rfl
  · intro n hn
    rw [hmain, hn]
    rfl

/-- C4 witness: with `A` loaded, `call("imread")` runs `A`'s `imread`
callable (id 1) on the given arguments. -/
theorem call_dispatches_first_entry_witness :
    call fsemDemo sLoaded "imread" [] [] = liftResult sLoaded (fsemDemo 1 [] []) :=
  (call_dispatches_first_entry fsemDemo sLoaded "imread" "A" 1 [] [] []
    (by decide) (by decide)).1

/-- C5 (counterexample): with `imread` recognized but its list empty and an
explicit plugin `B` requested, no entry carries `B` (the list is empty), yet
`call` raises `NoPluginRegisteredError`, not
`PluginNotFoundForCapabilityError` — refuting the unscoped "exactly when no
entry of kind's list carries that plugin name". -/
theorem call_plugin_not_found_unscoped_fails :
    dictGet sScanned.plugin_store "imread" = some [] ∧
    (∀ e ∈ ([] : List Entry), ¬ e.1 = "B") ∧
    (call fsemDemo sScanned "imread" [] [("plugin", PyVal.vstr "B")]).2
        = CallResult.error Err.noPluginRegistered ∧
    (call fsemDemo sScanned "imread" [] [("plugin", PyVal.vstr "B")]).2
        ≠ CallResult.error Err.pluginNotFound := by
  decide

/-- C5 (amended): `call` raises `InvalidCapabilityError` exactly when the
kind is unrecognized; `NoPluginRegisteredError` exactly when recognized with
an empty list; and, when the list is non-empty and an explicit plugin is
given, `PluginNotFoundForCapabilityError` exactly when no entry of the list
carries that plugin name. -/
theorem call_error_conditions (fsem : FuncSem) (s : RegistryState) (kind : String)
    (args : List PyVal) (kwargs : Dict PyVal) :
    ((call fsem s kind args kwargs).2 = CallResult.error Err.invalidCapability
        ↔ dictGet s.plugin_store kind = none) ∧
    ((call fsem s kind args kwargs).2 = CallResult.error Err.noPluginRegistered
        ↔ dictGet s.plugin_store kind = some []) ∧
    (∀ funcs, dictGet s.plugin_store kind = some funcs → funcs ≠ [] →
      pyEq ((dictGet kwargs "plugin").getD PyVal.vnone) PyVal.vnone = false →
      ((call fsem s kind args kwargs).2 = CallResult.error Err.pluginNotFound
        ↔ funcs.filter (fun e => pyEq (PyVal.vstr e.1)
            ((dictGet kwargs "plugin").getD PyVal.vnone)) = [])) := by
  cases hk : dictGet s.plugin_store kind with
  | none =>
    refine ⟨?_, ?_, ?_⟩
    · unfold call; rw [hk]; simp
    · unfold call; rw [hk]; simp
    · intro funcs hf
      exact absurd hf (by simp)
  | some pf =>
    cases pf with
    | nil =>
      refine ⟨?_, ?_, ?_⟩
      · unfold call; rw [hk]; simp
      · unfold call; rw [hk]; simp
      · intro funcs hf hne
        injection hf with hf
        exact absurd hf.symm hne
    | cons e rest =>
      obtain ⟨p0, f0⟩ := e
      by_cases hpn : pyEq ((dictGet kwargs "plugin").getD PyVal.vnone) PyVal.vnone = true
      · have hres : call fsem s kind args kwargs
            = liftResult s (fsem f0 args (dictRemove kwargs "plugin")) := by
          unfold call
          rw [hk]
          simp only [hpn, if_true]
        refine ⟨?_, ?_, ?_⟩
        · rw [hres]
          constructor
          · intro h; exact absurd h (liftResult_snd_ne _ _ _ (by intro n h; cases h))
          · intro h; cases h
        · rw [hres]
          constructor
          · intro h; exact absurd h (liftResult_snd_ne _ _ _ (by intro n h; cases h))
          · intro h; cases h
        · intro funcs _ _ hfalse
          rw [hpn] at hfalse
          cases hfalse
      · have hpn' : pyEq ((dictGet kwargs "plugin").getD PyVal.vnone) PyVal.vnone = false :=
          Bool.eq_false_iff.mpr hpn
        cases hfil : ((p0, f0) :: rest).filter
            (fun e => pyEq (PyVal.vstr e.1) ((dictGet kwargs "plugin").getD PyVal.vnone)) with
        | nil =>
          have hres : call fsem s kind args kwargs = (s, CallResult.error Err.pluginNotFound) := by
            unfold call
            rw [hk]
            simp only [hpn', Bool.false_eq_true, if_false, hfil]
          refine ⟨?_, ?_, ?_⟩
          · rw [hres]; simp
          · rw [hres]; simp
          · intro funcs hf _ _
            injection hf with hf
            subst hf
            rw [hres, hfil]
            simp
        | cons e' rest' =>
          obtain ⟨p1, f1⟩ := e'
          have hres : call fsem s kind args kwargs
              = liftResult s (fsem f1 args (dictRemove kwargs "plugin")) := by
            unfold call
            rw [hk]
            simp only [hpn', Bool.false_eq_true, if_false, hfil]
          refine ⟨?_, ?_, ?_⟩
          · rw [hres]
            constructor
            · intro h; exact absurd h (liftResult_snd_ne _ _ _ (by intro n h; cases h))
            · intro h; cases h
          · rw [hres]
            constructor
            · intro h; exact absurd h (liftResult_snd_ne _ _ _ (by intro n h; cases h))
            · intro h; cases h
          · intro funcs hf _ _
            injection hf with hf
            subst hf
            rw [hres, hfil]
            constructor
            · intro h; exact absurd h (liftResult_snd_ne _ _ _ (by intro n h; cases h))
            · intro h; cases h

/-- C5 witness: with `A` loaded for `imread` and plugin `B` requested
explicitly, the non-empty-list characterization yields
`PluginNotFoundForCapabilityError`. -/
theorem call_error_conditions_witness :
    (call fsemDemo sLoaded "imread" [] [("plugin", PyVal.vstr "B")]).2
        = CallResult.error Err.pluginNotFound :=
  ((call_error_conditions fsemDemo sLoaded "imread" [] [("plugin", PyVal.vstr "B")]).2.2
    [("A", 1)] (by decide) (by decide) (by decide)).mpr (by decide)

/-- C6: for a loaded plugin, `use(name)` with `kind` omitted succeeds and
replaces each capability's list by its stable partition — the entries naming
the plugin first, then the others, both in their original relative order, a
permutation of the old list — and a second `use(name)` changes nothing. -/
theorem use_default_stable_reorder (s : RegistryState) (name : String)
    (hnd : (dictKeys s.plugin_store).Nodup)
    (hloaded : dictMem (available true s) name = true) :
    (use s name none).2 = none ∧
    (∀ k funcs, dictGet s.plugin_store k = some funcs →
      dictGet ((use s name none).1).plugin_store k = some (stablePartition name funcs) ∧
      (stablePartition name funcs).Perm funcs) ∧
    use ((use s name none).1) name none = ((use s name none).1, none) := by
  have huse : use s name none = useLoop name (dictKeys s.plugin_store) s := by
    simp [use, hloaded]
  have hsub : ∀ k ∈ dictKeys s.plugin_store, dictMem s.plugin_store k = true := by
    intro k hk
    exact (dictMem_iff_mem_keys _ _).mpr hk
  obtain ⟨h1, h2, _⟩ := useLoop_get name (dictKeys s.plugin_store) s hnd hsub
  refine ⟨by rw [huse]; exact h1, ?_, ?_⟩
  · intro k funcs hget
    have hk : k ∈ dictKeys s.plugin_store := mem_keys_of_get _ _ _ hget
    constructor
    · rw [huse, h2 k hk, hget]
      rfl
    · exact stablePartition_perm name funcs
  · have havail : available true ((useLoop name (dictKeys s.plugin_store) s).1)
        = available true s :=
      available_congr true _ s (useLoop_provides name _ s)
        (fun q => useLoop_storeAny name _ s q)
    have hmem2 : dictMem (available true ((useLoop name (dictKeys s.plugin_store) s).1)) name
        = true := by
      rw [havail]
      exact hloaded
    have huse2 : use ((useLoop name (dictKeys s.plugin_store) s).1) name none
        = useLoop name (dictKeys ((useLoop name (dictKeys s.plugin_store) s).1).plugin_store)
            ((useLoop name (dictKeys s.plugin_store) s).1) := by
      simp [use, hmem2]
    rw [huse, huse2, useLoop_keys]
    exact useLoop_idem name (dictKeys s.plugin_store) s hnd hsub

/-- C6 witness: reordering `A`'s lists after load leaves the `imread` list
equal to its stable partition, a permutation of the original. -/
theorem use_default_stable_reorder_witness :
    dictGet ((use sLoaded "A" none).1).plugin_store "imread"
        = some (stablePartition "A" [("A", 1)]) ∧
    (stablePartition "A" [("A", 1)]).Perm [("A", 1)] :=
  (use_default_stable_reorder sLoaded "A" (by decide) (by decide)).2.1 "imread" [("A", 1)]
    (by decide)

theorem storeAny_imp_provides (s : RegistryState) (p : String)
    (h : storeSubsetProvides s)
    (hsa : storeAny s.plugin_store (fun e => e.1 == p) = true) :
    dictMem s.plugin_provides p = true := by
  unfold storeAny at hsa
  obtain ⟨kv, hkv, hany⟩ := List.any_eq_true.mp hsa
  obtain ⟨e, he, hep⟩ := List.any_eq_true.mp hany
  have hEq : e.1 = p := by simpa using hep
  rw [← hEq]
  exact h kv hkv e he

/-- C7: `available(false)` lists exactly the scanned plugins;
`available(true)` lists exactly the plugins occurring in at least one
capability entry (for states where every stored plugin was scanned, as
`load` guarantees); and each listed plugin maps to its declared capabilities
with underscore-prefixed names removed. Mutation-freedom is by construction:
`available` returns no state. -/
theorem available_reports_loaded_and_declared (s : RegistryState)
    (h : storeSubsetProvides s) :
    dictKeys (available false s) = dictKeys s.plugin_provides ∧
    (∀ p, dictMem (available true s) p = storeAny s.plugin_store (fun e => e.1 == p)) ∧
    (∀ b p, dictMem (available b s) p = true →
      dictGet (available b s) p = (dictGet s.plugin_provides p).map
        (fun provs => provs.filter (fun f => !(startswith f "_")))) := by
  refine ⟨dictKeys_available_false s, ?_, ?_⟩
  · intro p
    rw [dictMem, dictGet_available]
    simp only [Bool.not_true, Bool.false_or]
    cases hsa : storeAny s.plugin_store (fun e => e.1 == p) with
    | false => simp
    | true =>
      simp only [if_true]
      have hmem : dictMem s.plugin_provides p = true := storeAny_imp_provides s p h hsa
      rw [dictMem] at hmem
      simp [Option.isSome_map, hmem]
  · intro b p hmem
    rw [dictMem, dictGet_available] at hmem
    rw [dictGet_available]
    cases hcond : (!b || storeAny s.plugin_store (fun e => e.1 == p)) with
    | false =>
      rw [hcond] at hmem
      simp at hmem
    | true =>
      rw [hcond] at hmem
      simp

/-- C7 witness: with `A` loaded, the loaded-only availability of `A` agrees
with its occurrence in the Capability Store. -/
theorem available_reports_loaded_and_declared_witness :
    dictMem (available true sLoaded) "A" = storeAny sLoaded.plugin_store (fun e => e.1 == "A") :=
  (available_reports_loaded_and_declared sLoaded (by decide)).2.1 "A"

end PluginRegistry
